import Mathlib

/-!
Verification of the BlockVault encryption engine
(`src/blockvault_crypto/src/main.rs`).

The core of the program is a file-level authenticated-encryption envelope:
`encrypt_file` derives a key from a passphrase via PBKDF2, seals the
plaintext with AES-256-GCM under a fresh random salt and nonce, and writes
`MAGIC ‖ salt ‖ nonce ‖ ciphertext-with-tag`; `decrypt_file` validates the
length and magic tag, re-derives the key from the stored salt, and opens
the ciphertext.

Bytes are modelled as natural numbers and byte buffers as `List Nat`.
The file-system I/O and random sourcing are external collaborators: the
random salt and nonce drawn by `encrypt_file` become explicit arguments,
file contents become the byte-list arguments and results.

The PBKDF2 and AES-256-GCM primitives come from external crates (`pbkdf2`,
`aes-gcm`), not from this repository's sources; they are modelled from the
spec's collaborator interfaces (section 6) as ideal primitives: the KDF is
deterministic and collision-free, the AEAD seal appends a fixed-size tag
that binds key, nonce, associated data and ciphertext body, and open
succeeds exactly on an untampered seal under the same key, nonce and
associated data.
-/

namespace BlockVault

/-- The 8-byte format marker `b"BVENC001"` from the source. -/
def MAGIC : List Nat := [66, 86, 69, 78, 67, 48, 48, 49]

/-- `SALT_LEN` from the source. -/
def SALT_LEN : Nat := 16

/-- `NONCE_LEN` from the source (AES-GCM standard nonce size). -/
def NONCE_LEN : Nat := 12

/-- AES-GCM's fixed authentication-tag size in bytes. -/
def TAG_LEN : Nat := 16

/-- `PBKDF2_ITERS` from the source. -/
def PBKDF2_ITERS : Nat := 120000

/-- The distinct failure kinds of the decrypt path (spec section 7).
In the source each is a distinct `anyhow!` error: "file too short or
corrupt", "invalid magic header", "decryption failed". -/
inductive CryptoError where
  | malformedEnvelope
  | unsupportedFormat
  | authenticationFailure
deriving DecidableEq

/-- A buffer of real bytes: every element is below 256 (Rust `u8`). -/
def IsBytes (l : List Nat) : Prop := ∀ b ∈ l, b < 256

instance (l : List Nat) : Decidable (IsBytes l) :=
  List.decidableBAll _ l

/-- Positional base-257 encoding of a buffer into one natural number
(each element is stored as `b + 1`, so the empty list and trailing
elements are unambiguous). It is injective on buffers of real bytes, and
also on the ideal derived keys, whose 31-byte tail is a fixed pad. Used
to build the ideal models of the external primitives. -/
def listEncode : List Nat → Nat
  | [] => 0
  | b :: t => (b + 1) + 257 * listEncode t

/-- Modelled from the spec: the password-hardening primitive
`derive(passphrase, salt, iterations) -> fixed-length key` supplied by the
external `pbkdf2` crate (`pbkdf2_hmac_array::<Sha256, 32>`), absent from
src/. Ideal model: a pure, total, deterministic function of
(passphrase, salt, iterations) returning a 32-byte key, collision-free
across distinct inputs; the key's first component carries the identity of
(passphrase, salt, iterations) and the remaining 31 bytes are a fixed
pad. -/
def pbkdf2_hmac_array (passphrase salt : List Nat) (iters : Nat) : List Nat :=
  Nat.pair (listEncode passphrase) (Nat.pair (listEncode salt) iters) :: List.replicate 31 0

/-- `derive_key` from the source: PBKDF2-HMAC-SHA256 over the passphrase
bytes and the salt, for `PBKDF2_ITERS` iterations, giving a 32-byte key. -/
def derive_key (passphrase salt : List Nat) : List Nat :=
  pbkdf2_hmac_array passphrase salt PBKDF2_ITERS

/-- Modelled from the spec: the keystream byte at position `i` of the AEAD
cipher under (key, nonce); the external `aes-gcm` crate is absent from
src/. Any fixed byte-valued function of (key, nonce, position) works for
the properties in scope; confidentiality itself is not in scope. -/
def keystreamByte (key nonce : List Nat) (i : Nat) : Nat :=
  Nat.pair (listEncode key) (Nat.pair (listEncode nonce) i) % 256

/-- XOR a buffer with the keystream starting at position `i`. Applying it
twice restores the buffer. -/
def xorKS (key nonce : List Nat) : Nat → List Nat → List Nat
  | _, [] => []
  | i, b :: t => (b ^^^ keystreamByte key nonce i) :: xorKS key nonce (i + 1) t

/-- Modelled from the spec: the fixed-size authentication tag the AEAD
seal appends, binding key, nonce, associated data and ciphertext body.
Ideal model: `TAG_LEN` bytes that are collision-free across distinct
(key, nonce, aad, body) quadruples. -/
def tagOf (key nonce aad body : List Nat) : List Nat :=
  Nat.pair (listEncode key)
      (Nat.pair (listEncode nonce) (Nat.pair (listEncode aad) (listEncode body)))
    :: List.replicate (TAG_LEN - 1) 0

/-- Modelled from the spec: the AEAD primitive
`seal(key, nonce, aad, plaintext) -> ciphertext_with_tag`
(`Aes256Gcm::encrypt`, external to src/): the plaintext XORed with the
keystream, followed by the authentication tag. -/
def aeadSeal (key nonce aad msg : List Nat) : List Nat :=
  xorKS key nonce 0 msg ++ tagOf key nonce aad (xorKS key nonce 0 msg)

/-- Modelled from the spec: the AEAD primitive
`open(key, nonce, aad, ciphertext_with_tag) -> plaintext | AuthenticationFailure`
(`Aes256Gcm::decrypt`, external to src/): reject inputs shorter than the
tag, recompute the tag over the body and compare, and on success undo the
keystream. -/
def aeadOpen (key nonce aad ct : List Nat) : Option (List Nat) :=
  if ct.length < TAG_LEN then none
  else
    let body := ct.take (ct.length - TAG_LEN)
    let tag := ct.drop (ct.length - TAG_LEN)
    if tag = tagOf key nonce aad body then some (xorKS key nonce 0 body) else none

/-- `encrypt_file` from the source, with the external collaborators made
explicit: `data` is the plaintext read from the input file, `salt` and
`nonce` are the fresh random bytes drawn from `rand::thread_rng()`, and
the returned buffer is what gets written to the output file:
`MAGIC ‖ salt ‖ nonce ‖ ciphertext`. An absent AAD is replaced by the
empty string (`aad.unwrap_or("")`). -/
def encrypt_file (data salt nonce passphrase : List Nat) (aad : Option (List Nat)) :
    List Nat :=
  let key := derive_key passphrase salt
  let aad_bytes := aad.getD []
  let ciphertext := aeadSeal key nonce aad_bytes data
  MAGIC ++ salt ++ nonce ++ ciphertext

/-- `decrypt_file` from the source, with the file I/O made explicit:
`buffer` is the input file's bytes and the result is either the plaintext
written to the output file or the typed error. Mirrors the source:
length check, magic check, positional `split_at` into salt, nonce and
ciphertext, key re-derivation, AEAD open. An absent AAD is replaced by
the empty string (`aad.unwrap_or("")`). -/
def decrypt_file (buffer passphrase : List Nat) (aad : Option (List Nat)) :
    Except CryptoError (List Nat) :=
  if buffer.length < MAGIC.length + SALT_LEN + NONCE_LEN then
    .error .malformedEnvelope
  else
    let magic := buffer.take MAGIC.length
    let rest := buffer.drop MAGIC.length
    if magic ≠ MAGIC then .error .unsupportedFormat
    else
      let salt := rest.take SALT_LEN
      let rest2 := rest.drop SALT_LEN
      let nonce := rest2.take NONCE_LEN
      let ciphertext := rest2.drop NONCE_LEN
      let key := derive_key passphrase salt
      match aeadOpen key nonce (aad.getD []) ciphertext with
      | some plaintext => .ok plaintext
      | none => .error .authenticationFailure

/-- Flip bit `j` of the byte at position `i` of a buffer. -/
def flipBit (l : List Nat) (i j : Nat) : List Nat :=
  l.set i (l.getD i 0 ^^^ 2 ^ j)

/-- A concrete 16-byte salt used to instantiate the theorems. -/
def salt0 : List Nat := List.range 16

/-- A concrete 12-byte nonce used to instantiate the theorems. -/
def nonce0 : List Nat := List.range 12

/-- A second concrete 16-byte salt, distinct from `salt0`. -/
def salt1 : List Nat := List.replicate 16 7

/-- A second concrete 12-byte nonce, distinct from `nonce0`. -/
def nonce1 : List Nat := List.replicate 12 3

/-! ## Basic lemmas about the encodings and the ideal primitives -/

/-- The base-257 encoding is injective on buffers of real bytes. -/
theorem listEncode_inj : ∀ {l1 l2 : List Nat}, IsBytes l1 → IsBytes l2 →
    listEncode l1 = listEncode l2 → l1 = l2
  | [], [], _, _, _ => rfl
  | [], b :: t, _, _, h => by simp only [listEncode] at h; omega
  | b :: t, [], _, _, h => by simp only [listEncode] at h; omega
  | b1 :: t1, b2 :: t2, h1, h2, h => by
    have hb1 : b1 < 256 := h1 b1 (List.mem_cons_self ..)
    have hb2 : b2 < 256 := h2 b2 (List.mem_cons_self ..)
    have ht1 : IsBytes t1 := fun b hb => h1 b (List.mem_cons_of_mem _ hb)
    have ht2 : IsBytes t2 := fun b hb => h2 b (List.mem_cons_of_mem _ hb)
    simp only [listEncode] at h
    have hb : b1 = b2 ∧ listEncode t1 = listEncode t2 := by omega
    rw [hb.1, listEncode_inj ht1 ht2 hb.2]

/-- The base-257 encoding is injective on derived keys: the 31-byte pad
after the identity component is fixed. -/
theorem listEncode_key_inj {x y : Nat}
    (h : listEncode (x :: List.replicate 31 0) = listEncode (y :: List.replicate 31 0)) :
    x = y := by
  simp only [listEncode] at h
  omega

/-- Two derived keys agree only when passphrase and salt agree. -/
theorem derive_key_inj {p1 s1 p2 s2 : List Nat}
    (hp1 : IsBytes p1) (hs1 : IsBytes s1) (hp2 : IsBytes p2) (hs2 : IsBytes s2)
    (h : listEncode (derive_key p1 s1) = listEncode (derive_key p2 s2)) :
    p1 = p2 ∧ s1 = s2 := by
  have h1 := listEncode_key_inj h
  rw [Nat.pair_eq_pair] at h1
  obtain ⟨hp, h1⟩ := h1
  rw [Nat.pair_eq_pair] at h1
  exact ⟨listEncode_inj hp1 hp2 hp, listEncode_inj hs1 hs2 h1.1⟩

/-- The ideal tag is injective: equal tags force equal encodings of key,
nonce, associated data and ciphertext body. -/
theorem tagOf_inj {k1 n1 a1 b1 k2 n2 a2 b2 : List Nat}
    (h : tagOf k1 n1 a1 b1 = tagOf k2 n2 a2 b2) :
    listEncode k1 = listEncode k2 ∧ listEncode n1 = listEncode n2 ∧
      listEncode a1 = listEncode a2 ∧ listEncode b1 = listEncode b2 := by
  have h1 : Nat.pair (listEncode k1)
      (Nat.pair (listEncode n1) (Nat.pair (listEncode a1) (listEncode b1))) =
      Nat.pair (listEncode k2)
      (Nat.pair (listEncode n2) (Nat.pair (listEncode a2) (listEncode b2))) :=
    List.head_eq_of_cons_eq h
  rw [Nat.pair_eq_pair] at h1
  obtain ⟨hk, h1⟩ := h1
  rw [Nat.pair_eq_pair] at h1
  obtain ⟨hn, h1⟩ := h1
  rw [Nat.pair_eq_pair] at h1
  exact ⟨hk, hn, h1.1, h1.2⟩

/-- The tag has the cipher's fixed size. -/
theorem tagOf_length (key nonce aad body : List Nat) :
    (tagOf key nonce aad body).length = TAG_LEN := by
  simp [tagOf, TAG_LEN]

/-- XORing with the keystream preserves the buffer length. -/
theorem xorKS_length (key nonce : List Nat) : ∀ (i : Nat) (p : List Nat),
    (xorKS key nonce i p).length = p.length
  | _, [] => rfl
  | i, b :: t => by simp [xorKS, xorKS_length key nonce (i + 1) t]

/-- XORing with the keystream twice restores the buffer. -/
theorem xorKS_xorKS (key nonce : List Nat) : ∀ (i : Nat) (p : List Nat),
    xorKS key nonce i (xorKS key nonce i p) = p
  | _, [] => rfl
  | i, b :: t => by
    simp [xorKS, xorKS_xorKS key nonce (i + 1) t, Nat.xor_cancel_right]

/-- XORing with the keystream keeps real bytes real. -/
theorem xorKS_isBytes (key nonce : List Nat) : ∀ (i : Nat) (p : List Nat),
    IsBytes p → IsBytes (xorKS key nonce i p)
  | _, [], _ => by intro b hb; simp [xorKS] at hb
  | i, b :: t, h => by
    intro c hc
    simp only [xorKS, List.mem_cons] at hc
    rcases hc with hc | hc
    · subst hc
      have hb : b < 2 ^ 8 := h b (List.mem_cons_self ..)
      have hk : keystreamByte key nonce i < 2 ^ 8 := Nat.mod_lt _ (by norm_num)
      exact Nat.xor_lt_two_pow hb hk
    · exact xorKS_isBytes key nonce (i + 1) t
        (fun x hx => h x (List.mem_cons_of_mem _ hx)) c hc

/-- Sealing appends exactly the fixed-size tag to the body. -/
theorem aeadSeal_length (key nonce aad msg : List Nat) :
    (aeadSeal key nonce aad msg).length = msg.length + TAG_LEN := by
  simp [aeadSeal, xorKS_length, tagOf_length]

/-- Opening a seal under the same key, nonce and associated data returns
the sealed plaintext. -/
theorem aeadOpen_aeadSeal (key nonce aad msg : List Nat) :
    aeadOpen key nonce aad (aeadSeal key nonce aad msg) = some msg := by
  have hlen := aeadSeal_length key nonce aad msg
  have hbody : (xorKS key nonce 0 msg ++ tagOf key nonce aad (xorKS key nonce 0 msg)).length -
      TAG_LEN = (xorKS key nonce 0 msg).length := by
    rw [List.length_append, tagOf_length]; omega
  rw [aeadOpen, if_neg (by omega)]
  simp only [aeadSeal, hbody]
  rw [List.take_left, List.drop_left, if_pos rfl, xorKS_xorKS]

/-- Opening a seal fails whenever the recomputed tag differs from the
stored one. -/
theorem aeadOpen_seal_ne {key2 aad2 key nonce aad : List Nat} (msg : List Nat)
    (h : tagOf key2 nonce aad2 (xorKS key nonce 0 msg) ≠
      tagOf key nonce aad (xorKS key nonce 0 msg)) :
    aeadOpen key2 nonce aad2 (aeadSeal key nonce aad msg) = none := by
  have hlen := aeadSeal_length key nonce aad msg
  have hbody : (xorKS key nonce 0 msg ++ tagOf key nonce aad (xorKS key nonce 0 msg)).length -
      TAG_LEN = (xorKS key nonce 0 msg).length := by
    rw [List.length_append, tagOf_length]; omega
  rw [aeadOpen, if_neg (by omega)]
  simp only [aeadSeal, hbody]
  rw [List.take_left, List.drop_left, if_neg (fun hc => h hc.symm)]

/-- A successful open certifies that the input was exactly a seal of the
returned plaintext under the same key, nonce and associated data. -/
theorem aeadOpen_eq_some {key nonce aad ct p : List Nat}
    (h : aeadOpen key nonce aad ct = some p) : ct = aeadSeal key nonce aad p := by
  rw [aeadOpen] at h
  by_cases hlen : ct.length < TAG_LEN
  · rw [if_pos hlen] at h; exact absurd h (by simp)
  · rw [if_neg hlen] at h
    simp only at h
    by_cases htag : ct.drop (ct.length - TAG_LEN) =
        tagOf key nonce aad (ct.take (ct.length - TAG_LEN))
    · rw [if_pos htag, Option.some_inj] at h
      have hb : xorKS key nonce 0 p = ct.take (ct.length - TAG_LEN) := by
        rw [← h, xorKS_xorKS]
      rw [aeadSeal, hb, ← htag, List.take_append_drop]
    · rw [if_neg htag] at h; exact absurd h (by simp)

/-- `decrypt_file` on a well-formed envelope reduces to the AEAD open of
its ciphertext under the key re-derived from the stored salt. -/
theorem decrypt_wellformed (salt nonce ct passphrase : List Nat)
    (aad : Option (List Nat)) (hs : salt.length = SALT_LEN)
    (hn : nonce.length = NONCE_LEN) :
    decrypt_file (MAGIC ++ salt ++ nonce ++ ct) passphrase aad =
      match aeadOpen (derive_key passphrase salt) nonce (aad.getD []) ct with
      | some plaintext => .ok plaintext
      | none => .error .authenticationFailure := by
  have hm : MAGIC.length = 8 := rfl
  have hlen : (MAGIC ++ salt ++ nonce ++ ct).length = 36 + ct.length := by
    simp [hm, hs, hn, SALT_LEN, NONCE_LEN]; omega
  rw [decrypt_file, if_neg (by rw [hlen, hm]; simp [SALT_LEN, NONCE_LEN])]
  simp only [List.append_assoc]
  rw [List.take_left, List.drop_left, if_neg (by simp),
    List.take_left' hs, List.drop_left' hs, List.take_left' hn, List.drop_left' hn]

/-! ## Bit-flip lemmas -/

/-- Flipping a bit cannot leave a natural number unchanged. -/
theorem xor_two_pow_ne (b j : Nat) : b ^^^ 2 ^ j ≠ b := by
  intro h
  have h3 := congrArg (fun x => b ^^^ x) (h.trans (Nat.xor_zero b).symm)
  simp only [← Nat.xor_assoc, Nat.xor_self, Nat.zero_xor] at h3
  exact absurd h3 (Nat.pos_iff_ne_zero.mp (Nat.pos_pow_of_pos j (by norm_num)))

/-- Flipping a bit preserves the buffer length. -/
theorem flipBit_length (l : List Nat) (i j : Nat) :
    (flipBit l i j).length = l.length := List.length_set ..

/-- A bit flip at an in-range position changes the buffer. -/
theorem flipBit_ne (l : List Nat) (i j : Nat) (h : i < l.length) :
    flipBit l i j ≠ l := by
  intro heq
  have h1 : (flipBit l i j).get? i = some (l.getD i 0 ^^^ 2 ^ j) :=
    List.get?_set_eq_of_lt _ h
  have h2 : l.get? i = some (l.get ⟨i, h⟩) := List.get?_eq_get h
  have hd : l.getD i 0 = l.get ⟨i, h⟩ := by
    rw [List.getD_eq_getD_get?, h2]; rfl
  rw [heq, h2, hd, Option.some_inj] at h1
  exact xor_two_pow_ne _ j h1.symm

/-- A bit flip past the first block acts on the second block of an
appended buffer. -/
theorem flipBit_append_right (l1 l2 : List Nat) (i j : Nat) (h : l1.length ≤ i) :
    flipBit (l1 ++ l2) i j = l1 ++ flipBit l2 (i - l1.length) j := by
  rw [flipBit, flipBit, List.getD_eq_getD_get?, List.getD_eq_getD_get?,
    List.get?_append_right h, List.set_append_right _ _ h]

/-- A bit flip inside the first block acts on the first block of an
appended buffer. -/
theorem flipBit_append_left (l1 l2 : List Nat) (i j : Nat) (h : i < l1.length) :
    flipBit (l1 ++ l2) i j = flipBit l1 i j ++ l2 := by
  rw [flipBit, flipBit, List.getD_eq_getD_get?, List.getD_eq_getD_get?,
    List.get?_append h, List.set_append_left _ _ h]

/-- Flipping one of the low eight bits keeps real bytes real. -/
theorem flipBit_isBytes {l : List Nat} (i j : Nat) (hl : IsBytes l) (hj : j < 8) :
    IsBytes (flipBit l i j) := by
  intro b hb
  rcases List.mem_or_eq_of_mem_set hb with hmem | hbeq
  · exact hl b hmem
  · have hd : l.getD i 0 < 2 ^ 8 := by
      rcases Nat.lt_or_ge i l.length with hlt | hge
      · have hd : l.getD i 0 = l.get ⟨i, hlt⟩ := by
          rw [List.getD_eq_getD_get?, List.get?_eq_get hlt]; rfl
        rw [hd]
        exact hl _ (List.get_mem ..)
      · rw [List.getD_eq_default _ _ hge]; norm_num
    have hp : (2 : Nat) ^ j < 2 ^ 8 := Nat.pow_lt_pow_right (by norm_num) hj
    rw [hbeq]
    exact Nat.xor_lt_two_pow hd hp

/-! ## Round trips and rejections of `decrypt_file ∘ encrypt_file` -/

/-- Decrypting an envelope succeeds whenever the effective associated
data (after the `aad.unwrap_or("")` substitution) agree. -/
theorem decrypt_encrypt_eq_ok (P K salt nonce : List Nat)
    (A1 A2 : Option (List Nat)) (hs : salt.length = SALT_LEN)
    (hn : nonce.length = NONCE_LEN) (ha : A1.getD [] = A2.getD []) :
    decrypt_file (encrypt_file P salt nonce K A1) K A2 = .ok P := by
  simp only [encrypt_file]
  rw [decrypt_wellformed _ _ _ _ _ hs hn, ← ha, aeadOpen_aeadSeal]

/-- Opening fails on a seal with any single bit flipped anywhere in its
body or tag. -/
theorem aeadOpen_flipBit (key nonce aad msg : List Nat) (m j : Nat)
    (hmsg : IsBytes msg) (hm : m < msg.length + TAG_LEN) (hj : j < 8) :
    aeadOpen key nonce aad (flipBit (aeadSeal key nonce aad msg) m j) = none := by
  have hbl : (xorKS key nonce 0 msg).length = msg.length := xorKS_length ..
  have htl : (tagOf key nonce aad (xorKS key nonce 0 msg)).length = TAG_LEN :=
    tagOf_length ..
  rcases Nat.lt_or_ge m (xorKS key nonce 0 msg).length with hmb | hmb
  · rw [aeadSeal, flipBit_append_left _ _ _ _ hmb]
    have hbl' : (flipBit (xorKS key nonce 0 msg) m j).length =
        (xorKS key nonce 0 msg).length := flipBit_length ..
    have hctl : (flipBit (xorKS key nonce 0 msg) m j ++
        tagOf key nonce aad (xorKS key nonce 0 msg)).length =
        msg.length + TAG_LEN := by
      rw [List.length_append, hbl', hbl, htl]
    have hsplit : (flipBit (xorKS key nonce 0 msg) m j ++
        tagOf key nonce aad (xorKS key nonce 0 msg)).length - TAG_LEN =
        (flipBit (xorKS key nonce 0 msg) m j).length := by
      rw [hctl, hbl', hbl]; omega
    rw [aeadOpen, if_neg (by rw [hctl]; omega)]
    simp only [hsplit]
    rw [List.take_left, List.drop_left]
    rw [if_neg]
    intro hc
    have hinj := (tagOf_inj hc).2.2.2
    have hb : IsBytes (xorKS key nonce 0 msg) := xorKS_isBytes key nonce 0 msg hmsg
    have hb' : IsBytes (flipBit (xorKS key nonce 0 msg) m j) :=
      flipBit_isBytes m j hb hj
    exact flipBit_ne _ m j hmb (listEncode_inj hb' hb hinj.symm)
  · rw [aeadSeal, flipBit_append_right _ _ _ _ hmb]
    have hmt : m - (xorKS key nonce 0 msg).length <
        (tagOf key nonce aad (xorKS key nonce 0 msg)).length := by
      rw [htl]; omega
    have htl' : (flipBit (tagOf key nonce aad (xorKS key nonce 0 msg))
        (m - (xorKS key nonce 0 msg).length) j).length = TAG_LEN := by
      rw [flipBit_length, htl]
    have hctl : (xorKS key nonce 0 msg ++
        flipBit (tagOf key nonce aad (xorKS key nonce 0 msg))
          (m - (xorKS key nonce 0 msg).length) j).length =
        msg.length + TAG_LEN := by
      rw [List.length_append, htl', hbl]
    have hsplit : (xorKS key nonce 0 msg ++
        flipBit (tagOf key nonce aad (xorKS key nonce 0 msg))
          (m - (xorKS key nonce 0 msg).length) j).length - TAG_LEN =
        (xorKS key nonce 0 msg).length := by
      rw [hctl, hbl]; omega
    rw [aeadOpen, if_neg (by rw [hctl]; omega)]
    simp only [hsplit]
    rw [List.take_left, List.drop_left]
    rw [if_neg]
    intro hc
    exact flipBit_ne _ _ j hmt hc

/-! ## The claims -/

/-- C1: For every plaintext byte sequence P (including the empty
sequence), every passphrase K, and any fixed associated data A,
decrypting the envelope produced by `encrypt_file` with the same
passphrase K and the same associated data A succeeds and returns a
plaintext byte-identical to P, for any salt and nonce the random source
draws. -/
theorem C1_round_trip (P K : List Nat) (A : Option (List Nat))
    (salt nonce : List Nat) (hs : salt.length = SALT_LEN)
    (hn : nonce.length = NONCE_LEN) :
    decrypt_file (encrypt_file P salt nonce K A) K A = .ok P :=
  decrypt_encrypt_eq_ok P K salt nonce A A hs hn rfl

/-- Witness for C1 at a concrete plaintext, passphrase, associated data,
salt and nonce. -/
theorem C1_round_trip_witness :
    salt0.length = SALT_LEN ∧ nonce0.length = NONCE_LEN ∧
      decrypt_file (encrypt_file [84, 101, 115, 116] salt0 nonce0 [107] (some [109]))
        [107] (some [109]) = .ok [84, 101, 115, 116] :=
  ⟨by decide, by decide,
    C1_round_trip [84, 101, 115, 116] [107] (some [109]) salt0 nonce0
      (by decide) (by decide)⟩

/-- C2 (counterexample): the claim demands that decryption fail for every
pair of distinct associated-data values, "including one present, one
absent"; but the source substitutes the empty string for an absent AAD on
both paths (`aad.unwrap_or("")`), so encrypting with AAD absent and
decrypting with AAD present-but-empty succeeds. -/
theorem C2_counterexample :
    (none : Option (List Nat)) ≠ some [] ∧
      decrypt_file (encrypt_file [1, 2] salt0 nonce0 [7] none) [7] (some []) =
        .ok [1, 2] :=
  ⟨by decide,
    decrypt_encrypt_eq_ok [1, 2] [7] salt0 nonce0 none (some [])
      (by decide) (by decide) rfl⟩

/-- C2 (amended): decrypting `encrypt(P, K, A1)` with associated data A2
fails with `AuthenticationFailure` whenever the effective associated-data
bytes differ, i.e. whenever A1 ≠ A2 after substituting the empty string
for an absent value (the source treats an absent AAD and an empty AAD as
the same). -/
theorem C2_aad_binding (P K : List Nat) (A1 A2 : Option (List Nat))
    (salt nonce : List Nat) (hs : salt.length = SALT_LEN)
    (hn : nonce.length = NONCE_LEN) (h1 : IsBytes (A1.getD []))
    (h2 : IsBytes (A2.getD [])) (hne : A1.getD [] ≠ A2.getD []) :
    decrypt_file (encrypt_file P salt nonce K A1) K A2 =
      .error .authenticationFailure := by
  simp only [encrypt_file]
  rw [decrypt_wellformed _ _ _ _ _ hs hn]
  have hopen : aeadOpen (derive_key K salt) nonce (A2.getD [])
      (aeadSeal (derive_key K salt) nonce (A1.getD []) P) = none := by
    apply aeadOpen_seal_ne
    intro hc
    have h := (tagOf_inj hc).2.2.1
    exact hne (listEncode_inj h2 h1 h).symm
  rw [hopen]

/-- Witness for the amended C2 at two concrete, distinct associated-data
values. -/
theorem C2_aad_binding_witness :
    salt0.length = SALT_LEN ∧ nonce0.length = NONCE_LEN ∧
      IsBytes ((some [109] : Option (List Nat)).getD []) ∧
      IsBytes ((some [110] : Option (List Nat)).getD []) ∧
      (some [109] : Option (List Nat)).getD [] ≠ (some [110] : Option (List Nat)).getD [] ∧
      decrypt_file (encrypt_file [1, 2] salt0 nonce0 [7] (some [109])) [7] (some [110]) =
        .error .authenticationFailure :=
  ⟨by decide, by decide, by decide, by decide, by decide,
    C2_aad_binding [1, 2] [7] (some [109]) (some [110]) salt0 nonce0
      (by decide) (by decide) (by decide) (by decide) (by decide)⟩

/-- C3: For every plaintext P, associated data A, and pair of passphrases
K1 ≠ K2, decrypting `encrypt(P, K1, A)` with passphrase K2 fails with an
`AuthenticationFailure` error and returns no plaintext. -/
theorem C3_wrong_key (P K1 K2 : List Nat) (A : Option (List Nat))
    (salt nonce : List Nat) (hs : salt.length = SALT_LEN)
    (hn : nonce.length = NONCE_LEN) (hK1 : IsBytes K1) (hK2 : IsBytes K2)
    (hsalt : IsBytes salt) (hne : K1 ≠ K2) :
    decrypt_file (encrypt_file P salt nonce K1 A) K2 A =
      .error .authenticationFailure := by
  simp only [encrypt_file]
  rw [decrypt_wellformed _ _ _ _ _ hs hn]
  have hopen : aeadOpen (derive_key K2 salt) nonce (A.getD [])
      (aeadSeal (derive_key K1 salt) nonce (A.getD []) P) = none := by
    apply aeadOpen_seal_ne
    intro hc
    have h := (tagOf_inj hc).1
    exact hne (derive_key_inj hK2 hsalt hK1 hsalt h).1.symm
  rw [hopen]

/-- Witness for C3 at two concrete, distinct passphrases. -/
theorem C3_wrong_key_witness :
    salt0.length = SALT_LEN ∧ nonce0.length = NONCE_LEN ∧
      IsBytes [7] ∧ IsBytes [8] ∧ IsBytes salt0 ∧ [7] ≠ [8] ∧
      decrypt_file (encrypt_file [1, 2] salt0 nonce0 [7] (some [109])) [8] (some [109]) =
        .error .authenticationFailure :=
  ⟨by decide, by decide, by decide, by decide, by decide, by decide,
    C3_wrong_key [1, 2] [7] [8] (some [109]) salt0 nonce0
      (by decide) (by decide) (by decide) (by decide) (by decide) (by decide)⟩

/-- C10: Absent associated data is interchangeable with empty associated
data at the public interface: both encrypt and decrypt substitute the
empty byte string for an absent AAD before invoking the AEAD primitive. -/
theorem C10_aad_default (P K salt nonce : List Nat)
    (hs : salt.length = SALT_LEN) (hn : nonce.length = NONCE_LEN) :
    decrypt_file (encrypt_file P salt nonce K none) K (some []) = .ok P ∧
      decrypt_file (encrypt_file P salt nonce K (some [])) K none = .ok P :=
  ⟨decrypt_encrypt_eq_ok P K salt nonce none (some []) hs hn rfl,
    decrypt_encrypt_eq_ok P K salt nonce (some []) none hs hn rfl⟩

/-- Witness for C10 at a concrete plaintext and passphrase. -/
theorem C10_aad_default_witness :
    salt0.length = SALT_LEN ∧ nonce0.length = NONCE_LEN ∧
      (decrypt_file (encrypt_file [3, 4] salt0 nonce0 [7] none) [7] (some []) = .ok [3, 4] ∧
        decrypt_file (encrypt_file [3, 4] salt0 nonce0 [7] (some [])) [7] none = .ok [3, 4]) :=
  ⟨by decide, by decide,
    C10_aad_default [3, 4] [7] salt0 nonce0 (by decide) (by decide)⟩

/-- C4: An input shorter than 8+16+12 = 36 bytes fails with
`MalformedEnvelope` before any further parsing; an input of at least 36
bytes whose first 8 bytes differ from the magic constant fails with
`UnsupportedFormat`; and these two error kinds are distinct from each
other and from `AuthenticationFailure`. -/
theorem C4_format_validation (buffer K : List Nat) (A : Option (List Nat)) :
    (buffer.length < 36 → decrypt_file buffer K A = .error .malformedEnvelope) ∧
      (36 ≤ buffer.length → buffer.take 8 ≠ MAGIC →
        decrypt_file buffer K A = .error .unsupportedFormat) ∧
      CryptoError.malformedEnvelope ≠ CryptoError.unsupportedFormat ∧
      CryptoError.malformedEnvelope ≠ CryptoError.authenticationFailure ∧
      CryptoError.unsupportedFormat ≠ CryptoError.authenticationFailure := by
  refine ⟨fun h1 => ?_, fun h1 h2 => ?_, by decide, by decide, by decide⟩
  · rw [decrypt_file,
      if_pos (by rw [show MAGIC.length + SALT_LEN + NONCE_LEN = 36 from rfl]; exact h1)]
  · rw [decrypt_file,
      if_neg (by rw [show MAGIC.length + SALT_LEN + NONCE_LEN = 36 from rfl]; omega)]
    rw [if_pos (show buffer.take MAGIC.length ≠ MAGIC from h2)]

/-- Witness for C4 at a concrete too-short input and a concrete
wrong-magic input. -/
theorem C4_format_validation_witness :
    ([1, 2, 3] : List Nat).length < 36 ∧
      decrypt_file [1, 2, 3] [7] none = .error .malformedEnvelope ∧
      36 ≤ (List.replicate 40 0 : List Nat).length ∧
      (List.replicate 40 0 : List Nat).take 8 ≠ MAGIC ∧
      decrypt_file (List.replicate 40 0) [7] none = .error .unsupportedFormat :=
  ⟨by decide, (C4_format_validation [1, 2, 3] [7] none).1 (by decide),
    by decide, by decide,
    (C4_format_validation (List.replicate 40 0) [7] none).2.1 (by decide) (by decide)⟩

/-- C5: The envelope produced by `encrypt_file` is exactly the
concatenation, in this fixed order, of the 8-byte magic tag, the 16-byte
salt, the 12-byte nonce, and the ciphertext-with-tag, whose length is the
plaintext length plus the cipher's fixed tag size; hence the total
envelope length is 36 + len(P) + TAG_LEN bytes. -/
theorem C5_envelope_layout (P K : List Nat) (A : Option (List Nat))
    (salt nonce : List Nat) (hs : salt.length = SALT_LEN)
    (hn : nonce.length = NONCE_LEN) :
    ∃ ct : List Nat,
      encrypt_file P salt nonce K A = MAGIC ++ salt ++ nonce ++ ct ∧
        ct.length = P.length + TAG_LEN ∧ MAGIC.length = 8 ∧
        (encrypt_file P salt nonce K A).length = 36 + P.length + TAG_LEN := by
  refine ⟨aeadSeal (derive_key K salt) nonce (A.getD []) P, rfl,
    aeadSeal_length .., rfl, ?_⟩
  simp only [encrypt_file, List.length_append, aeadSeal_length, hs, hn,
    show MAGIC.length = 8 from rfl, SALT_LEN, NONCE_LEN, TAG_LEN]
  omega

/-- Witness for C5 at a concrete plaintext, salt and nonce. -/
theorem C5_envelope_layout_witness :
    salt0.length = SALT_LEN ∧ nonce0.length = NONCE_LEN ∧
      ∃ ct : List Nat,
        encrypt_file [9, 9, 9] salt0 nonce0 [7] none = MAGIC ++ salt0 ++ nonce0 ++ ct ∧
          ct.length = ([9, 9, 9] : List Nat).length + TAG_LEN ∧ MAGIC.length = 8 ∧
          (encrypt_file [9, 9, 9] salt0 nonce0 [7] none).length =
            36 + ([9, 9, 9] : List Nat).length + TAG_LEN :=
  ⟨by decide, by decide,
    C5_envelope_layout [9, 9, 9] [7] none salt0 nonce0 (by decide) (by decide)⟩

/-- C6: `derive_key` is a total, pure, deterministic function: it always
returns a 32-byte key with no error path, and two calls with
byte-identical passphrase and salt return the identical key. -/
theorem C6_derive_key_total (passphrase salt : List Nat) :
    (derive_key passphrase salt).length = 32 ∧
      ∀ passphrase' salt', passphrase' = passphrase → salt' = salt →
        derive_key passphrase' salt' = derive_key passphrase salt := by
  constructor
  · simp [derive_key, pbkdf2_hmac_array]
  · intro p' s' hp hsalt
    rw [hp, hsalt]

/-- Witness for C6 at a concrete passphrase and salt. -/
theorem C6_derive_key_total_witness :
    (derive_key [107] salt0).length = 32 ∧
      derive_key [107] salt0 = derive_key [107] salt0 :=
  ⟨(C6_derive_key_total [107] salt0).1,
    (C6_derive_key_total [107] salt0).2 [107] salt0 rfl rfl⟩

/-- C7: Two invocations of encrypt with identical plaintext, passphrase
and associated data, whose freshly drawn randomness differs in the salt
or the nonce, produce two different envelopes, and each envelope
independently decrypts back to P under (K, A). -/
theorem C7_nondeterminism (P K : List Nat) (A : Option (List Nat))
    (salt1 nonce1 salt2 nonce2 : List Nat)
    (hs1 : salt1.length = SALT_LEN) (hn1 : nonce1.length = NONCE_LEN)
    (hs2 : salt2.length = SALT_LEN) (hn2 : nonce2.length = NONCE_LEN)
    (hne : salt1 ≠ salt2 ∨ nonce1 ≠ nonce2) :
    encrypt_file P salt1 nonce1 K A ≠ encrypt_file P salt2 nonce2 K A ∧
      decrypt_file (encrypt_file P salt1 nonce1 K A) K A = .ok P ∧
      decrypt_file (encrypt_file P salt2 nonce2 K A) K A = .ok P := by
  refine ⟨?_, decrypt_encrypt_eq_ok P K salt1 nonce1 A A hs1 hn1 rfl,
    decrypt_encrypt_eq_ok P K salt2 nonce2 A A hs2 hn2 rfl⟩
  intro heq
  simp only [encrypt_file, List.append_assoc] at heq
  have h8 := congrArg (List.drop MAGIC.length) heq
  rw [List.drop_left, List.drop_left] at h8
  have hsalt := congrArg (List.take SALT_LEN) h8
  rw [List.take_left' hs1, List.take_left' hs2] at hsalt
  have hrest := congrArg (List.drop SALT_LEN) h8
  rw [List.drop_left' hs1, List.drop_left' hs2] at hrest
  have hnonce := congrArg (List.take NONCE_LEN) hrest
  rw [List.take_left' hn1, List.take_left' hn2] at hnonce
  rcases hne with h | h
  · exact h hsalt
  · exact h hnonce

/-- Witness for C7 at two concrete, distinct salt and nonce draws. -/
theorem C7_nondeterminism_witness :
    salt0.length = SALT_LEN ∧ nonce0.length = NONCE_LEN ∧
      salt1.length = SALT_LEN ∧ nonce1.length = NONCE_LEN ∧
      (salt0 ≠ salt1 ∨ nonce0 ≠ nonce1) ∧
      (encrypt_file [5] salt0 nonce0 [7] none ≠ encrypt_file [5] salt1 nonce1 [7] none ∧
        decrypt_file (encrypt_file [5] salt0 nonce0 [7] none) [7] none = .ok [5] ∧
        decrypt_file (encrypt_file [5] salt1 nonce1 [7] none) [7] none = .ok [5]) :=
  ⟨by decide, by decide, by decide, by decide, Or.inl (by decide),
    C7_nondeterminism [5] [7] none salt0 nonce0 salt1 nonce1
      (by decide) (by decide) (by decide) (by decide) (Or.inl (by decide))⟩

/-- C8: Flipping any single bit anywhere in the ciphertext-or-tag region
(bytes from offset 36 onward) of a valid envelope makes decryption with
the original passphrase and associated data fail with
`AuthenticationFailure`; it never succeeds with a different plaintext. -/
theorem C8_tamper_detection (P K : List Nat) (A : Option (List Nat))
    (salt nonce : List Nat) (i j : Nat) (hs : salt.length = SALT_LEN)
    (hn : nonce.length = NONCE_LEN) (hP : IsBytes P) (hi : 36 ≤ i)
    (hilt : i < (encrypt_file P salt nonce K A).length) (hj : j < 8) :
    decrypt_file (flipBit (encrypt_file P salt nonce K A) i j) K A =
      .error .authenticationFailure := by
  have hs' : salt.length = 16 := hs
  have hn' : nonce.length = 12 := hn
  have hml : MAGIC.length = 8 := rfl
  have hct : (aeadSeal (derive_key K salt) nonce (A.getD []) P).length =
      P.length + TAG_LEN := aeadSeal_length ..
  have hh : (MAGIC ++ salt ++ nonce).length = 36 := by
    simp [List.length_append, hml, hs', hn']
  have henc : encrypt_file P salt nonce K A =
      (MAGIC ++ salt ++ nonce) ++ aeadSeal (derive_key K salt) nonce (A.getD []) P :=
    rfl
  have hlen : (encrypt_file P salt nonce K A).length = 36 + (P.length + TAG_LEN) := by
    rw [henc, List.length_append, hh, hct]
  rw [henc, flipBit_append_right _ _ _ _ (by rw [hh]; omega)]
  rw [decrypt_wellformed _ _ _ _ _ hs hn]
  have hm : i - (MAGIC ++ salt ++ nonce).length < P.length + TAG_LEN := by
    rw [hh]
    rw [hlen] at hilt
    omega
  rw [aeadOpen_flipBit (derive_key K salt) nonce (A.getD []) P _ j hP hm hj]

/-- Witness for C8: a one-byte plaintext, a flip in the ciphertext body
(offset 36) and a flip inside the tag (offset 40). -/
theorem C8_tamper_detection_witness :
    salt0.length = SALT_LEN ∧ nonce0.length = NONCE_LEN ∧ IsBytes [5] ∧
      (36 : Nat) ≤ 40 ∧ 40 < (encrypt_file [5] salt0 nonce0 [7] none).length ∧
      (3 : Nat) < 8 ∧
      decrypt_file (flipBit (encrypt_file [5] salt0 nonce0 [7] none) 40 3) [7] none =
        .error .authenticationFailure :=
  ⟨by decide, by decide, by decide, by decide,
    by rw [show (encrypt_file [5] salt0 nonce0 [7] none).length = 53 from rfl]; omega,
    by decide,
    C8_tamper_detection [5] [7] none salt0 nonce0 40 3 (by decide) (by decide)
      (by decide) (by decide)
      (by rw [show (encrypt_file [5] salt0 nonce0 [7] none).length = 53 from rfl]; omega)
      (by decide)⟩

/-- C9: Decryption is all-or-nothing: every outcome is either one of the
three typed errors, with no plaintext bytes attached, or a success whose
returned plaintext is the complete sealed plaintext of a well-formed
envelope — never a partial or truncated prefix. -/
theorem C9_all_or_nothing (buffer K : List Nat) (A : Option (List Nat)) :
    decrypt_file buffer K A = .error .malformedEnvelope ∨
      decrypt_file buffer K A = .error .unsupportedFormat ∨
      decrypt_file buffer K A = .error .authenticationFailure ∨
      ∃ P salt nonce : List Nat, salt.length = SALT_LEN ∧
        nonce.length = NONCE_LEN ∧ decrypt_file buffer K A = .ok P ∧
        buffer = MAGIC ++ salt ++ nonce ++
          aeadSeal (derive_key K salt) nonce (A.getD []) P := by
  by_cases h1 : buffer.length < MAGIC.length + SALT_LEN + NONCE_LEN
  · left
    rw [decrypt_file, if_pos h1]
  · by_cases h2 : buffer.take MAGIC.length = MAGIC
    · have hlen : 36 ≤ buffer.length := by
        rw [show MAGIC.length + SALT_LEN + NONCE_LEN = 36 from rfl] at h1
        omega
      have hsl : ((buffer.drop 8).take 16).length = SALT_LEN := by
        simp only [List.length_take, List.length_drop]
        show min 16 (buffer.length - 8) = 16
        omega
      have hnl : (((buffer.drop 8).drop 16).take 12).length = NONCE_LEN := by
        simp only [List.length_take, List.length_drop]
        show min 12 (buffer.length - 8 - 16) = 12
        omega
      have hbuf : buffer = MAGIC ++ (buffer.drop 8).take 16 ++
          ((buffer.drop 8).drop 16).take 12 ++ ((buffer.drop 8).drop 16).drop 12 := by
        conv_lhs =>
          rw [← List.take_append_drop 8 buffer,
            ← List.take_append_drop 16 (buffer.drop 8),
            ← List.take_append_drop 12 ((buffer.drop 8).drop 16)]
        rw [show buffer.take 8 = MAGIC from h2, ← List.append_assoc,
          ← List.append_assoc]
      rw [hbuf, decrypt_wellformed _ _ _ _ _ hsl hnl]
      cases hopen : aeadOpen (derive_key K ((buffer.drop 8).take 16))
          (((buffer.drop 8).drop 16).take 12) (A.getD [])
          (((buffer.drop 8).drop 16).drop 12) with
      | none =>
        right; right; left
        rfl
      | some p =>
        right; right; right
        exact ⟨p, (buffer.drop 8).take 16, ((buffer.drop 8).drop 16).take 12,
          hsl, hnl, rfl, by rw [aeadOpen_eq_some hopen]⟩
    · right; left
      rw [decrypt_file, if_neg h1, if_pos h2]

end BlockVault
